import Mathlib

/-!
# Verification of the universal skill manager against its specification

This file gives a shallow embedding, in Lean, of the two Python scripts of the
repository (`scripts/install_skill.py` and `scripts/scan_skill.py`) and proves
or refutes the frozen claims about them.

Modelling conventions:
* Python strings are `String`; file trees are flat lists of
  `(relative path, content)` pairs (directories exist only through the files
  they contain, mirroring `Path.rglob` / `os.walk` which enumerate files);
* Python dicts built by `parse_simple_yaml` are modelled as functions
  `String → Option String` (insertion overwrites, lookup is total);
* machine I/O (HTTP fetches, the interactive prompt, subprocess results) is
  passed in explicitly as data, so the orchestrator of `main` becomes a pure
  function from a world description to an exit code plus a
  "destination mutated" flag;
* external syntax checkers that the installer shells out to (`ast.parse`,
  `bash -n`, `json.loads`) are oracle parameters: the claims under study only
  depend on how their verdicts are dispatched and collected.
-/

/- ============================================================ -/
/- Scanner: `scan_skill.py`                                     -/
/- ============================================================ -/

/-- A security finding, mirroring class `Finding` of `scan_skill.py`.
`line` is the 1-based line number (the scanner always supplies one for the
checks modelled here). -/
structure Finding where
  severity : String
  category : String
  file : String
  line : Nat
  description : String
  matched_text : String
  recommendation : String
deriving DecidableEq, Repr

/-- The scan report, mirroring `SkillScanner._build_report`.  The summary is
kept as the association list of the JSON object's entries, because the
installer later looks keys up in it.  The UTC timestamp of the real report is
wall-clock I/O and is not part of the model. -/
structure ScanReport where
  skill_path : String
  files_scanned : List String
  summary : List (String × Nat)
  findings : List Finding
deriving DecidableEq, Repr

/-- The `sum(1 for f in findings if f.severity == sev)` from `_build_report`. -/
def severityCount (sev : String) (findings : List Finding) : Nat :=
  (findings.filter (fun f => f.severity == sev)).length

/-- The `SkillScanner._build_report`: tally the findings by severity and assemble
the report dict.  The summary object has exactly the keys
`critical`, `warning`, `info`. -/
def build_report (skillPath : String) (filesScanned : List String)
    (findings : List Finding) : ScanReport :=
  { skill_path := skillPath
    files_scanned := filesScanned
    summary :=
      [("critical", severityCount "critical" findings),
       ("warning", severityCount "warning" findings),
       ("info", severityCount "info" findings)]
    findings := findings }

/-- The `summary[key]` for a summary known to contain the key (Python raises on a
missing key; the scanner only ever indexes keys it just wrote). -/
def summaryGet (report : ScanReport) (key : String) : Nat :=
  (report.summary.lookup key).getD 0

/-- The `exit_code_from_report` of `scan_skill.py`. -/
def exit_code_from_report (report : ScanReport) : Nat :=
  if summaryGet report "critical" > 0 then 3
  else if summaryGet report "warning" > 0 then 2
  else if summaryGet report "info" > 0 then 1
  else 0

/- ----- invisible unicode check ----- -/

/-- The fixed codepoint-range table of `_check_invisible_unicode`. -/
def invisible_ranges : List (Nat × Nat) :=
  [(0x200B, 0x200F),
   (0x2060, 0x2064),
   (0x2066, 0x2069),
   (0x202A, 0x202E),
   (0x206A, 0x206F),
   (0xFEFF, 0xFEFF),
   (0x00AD, 0x00AD),
   (0x034F, 0x034F),
   (0x061C, 0x061C),
   (0x115F, 0x1160),
   (0x17B4, 0x17B5),
   (0x180E, 0x180E),
   (0xE0000, 0xE007F)]

/-- The `is_invisible(ch)` from `_check_invisible_unicode`. -/
def is_invisible (c : Char) : Bool :=
  invisible_ranges.any (fun r => decide (r.1 ≤ c.toNat) && decide (c.toNat ≤ r.2))

/-- Uppercase-hex rendering of a codepoint, zero-padded to at least four
digits: Python's `f"U+{ord(c):04X}"` without the `U+`. -/
def hex4 (n : Nat) : String :=
  let ds := (Nat.toDigits 16 n).map Char.toUpper
  String.mk (List.replicate (4 - ds.length) '0' ++ ds)

/-- Python `sorted` on a list of strings (ascending lexicographic order;
on equal keys — identical strings — stability is immaterial). -/
def pySorted (l : List String) : List String := l.insertionSort (· ≤ ·)

/-- Python `str.strip()` (whitespace from both ends). -/
def pyStrip (s : String) : String :=
  String.mk (((s.data.dropWhile Char.isWhitespace).reverse.dropWhile
    Char.isWhitespace).reverse)

/-- Python `s[:n]` on a string. -/
def pyTake (s : String) (n : Nat) : String := String.mk (s.data.take n)

/-- The deduplicated, sorted `U+XXXX` strings for one line
(`sorted([f"U+{ord(c):04X}" for c in found_codepoints])`; the `set` dedups
repeated characters). -/
def codepointStrs (line : String) : List String :=
  pySorted (((line.data.filter is_invisible).map Char.toNat).dedup.map
    (fun n => "U+" ++ hex4 n))

/-- The description text of an invisible-unicode finding: up to five distinct
codepoints are shown, with an `(and k more)` suffix beyond five. -/
def invisibleDescription (line : String) : String :=
  let strs := codepointStrs line
  let shown := strs.take 5
  let suffix :=
    if strs.length > 5 then
      " (and " ++ toString (strs.length - 5) ++ " more)"
    else ""
  "Invisible Unicode characters detected: " ++ String.intercalate ", " shown ++ suffix

/-- The single finding `_check_invisible_unicode` emits for a line that
contains at least one invisible codepoint. -/
def invisibleFinding (file : String) (lineNum : Nat) (line : String) : Finding :=
  { severity := "critical"
    category := "invisible_unicode"
    file := file
    line := lineNum
    description := invisibleDescription line
    matched_text := pyTake (pyStrip line) 120
    recommendation :=
      "Remove invisible characters. These can hide malicious instructions from human review." }

/-- Does a line contain at least one invisible codepoint
(`if found_codepoints:`)? -/
def lineHasInvisible (line : String) : Bool := line.data.any is_invisible

/-- The `for line_num, line in enumerate(lines, start=1)` loop of
`_check_invisible_unicode`, with `n` the number of the first line. -/
def checkInvisibleFrom (file : String) : Nat → List String → List Finding
  | _, [] => []
  | n, line :: rest =>
    (if lineHasInvisible line then [invisibleFinding file n line] else [])
      ++ checkInvisibleFrom file (n + 1) rest

/-- The `SkillScanner._check_invisible_unicode(lines, file)`: the findings this
check appends for the given file, in order. -/
def check_invisible_unicode (lines : List String) (file : String) : List Finding :=
  checkInvisibleFrom file 1 lines

/- ============================================================ -/
/- Installer: `install_skill.py`, security-scan gate            -/
/- ============================================================ -/

/-- The `run_security_scan` of `install_skill.py`, reduced to its decision logic.
The report is the parsed JSON the scanner subprocess printed; `force` is the
`--force` flag; `userYes` is what the operator would answer were the
confirmation prompt reached.  Returns `(prompted?, proceed?)`.

Faithful to the source: the gate reads `summary.get("total", 0)` and treats
zero as "no security threats detected". -/
def run_security_scan (report : ScanReport) (force userYes : Bool) : Bool × Bool :=
  let total := ((report.summary.lookup "total").getD 0)
  if total == 0 then (false, true)
  else if force then (false, true)
  else (true, userYes)

/- ----- simple YAML / frontmatter parsing ----- -/

/-- The dict built by `parse_simple_yaml`, modelled by its lookup function. -/
abbrev SimpleDict := String → Option String

def emptyDict : SimpleDict := fun _ => none

/-- The `result[key] = value` on a Python dict: overwrite semantics. -/
def dictInsert (k v : String) (d : SimpleDict) : SimpleDict :=
  fun x => if x = k then some v else d x

/-- Split a character list at every occurrence of `c`, keeping empty pieces:
Python `s.split(c)` (always at least one piece). -/
def splitChar (c : Char) : List Char → List (List Char)
  | [] => [[]]
  | d :: ds =>
    if d = c then [] :: splitChar c ds
    else
      match splitChar c ds with
      | [] => [[d]]
      | x :: xs => (d :: x) :: xs

/-- Python `s.strip(c)` for a single character `c`. -/
def pyStripChar (c : Char) (s : String) : String :=
  String.mk (((s.data.dropWhile (· = c)).reverse.dropWhile (· = c)).reverse)

/-- Python `line.split(':', 1)` for a line known to contain a colon:
the text before the first colon and the text after it. -/
def splitColon1 (s : String) : String × String :=
  let sp := s.data.span (· ≠ ':')
  (String.mk sp.1, String.mk (sp.2.drop 1))

/-- One iteration of the `for line in yaml_str.strip().split('\n')` loop of
`parse_simple_yaml`: blank and `#` lines are skipped, lines without a colon
are skipped, otherwise the line is split at the first colon and the stripped
key is bound to the stripped, quote-stripped value. -/
def processYamlLine (d : SimpleDict) (rawLine : String) : SimpleDict :=
  let line := pyStrip rawLine
  if line = "" then d
  else if line.data.head? = some '#' then d
  else if line.data.contains ':' then
    let kv := splitColon1 line
    dictInsert (pyStrip kv.1) (pyStripChar '\'' (pyStripChar '"' (pyStrip kv.2))) d
  else d

/-- The `parse_simple_yaml` of `install_skill.py`.  A total function: it cannot
raise for any input string. -/
def parse_simple_yaml (yamlStr : String) : SimpleDict :=
  (((splitChar '\n' (pyStrip yamlStr).data)).map String.mk).foldl
    processYamlLine emptyDict

/- ----- literal matching and splitting helpers ----- -/

/-- Strip a literal character sequence from the front of a list:
`some rest` iff the list is `lit ++ rest`. -/
def stripLit : List Char → List Char → Option (List Char)
  | [], cs => some cs
  | _ :: _, [] => none
  | p :: ps, c :: cs => if c = p then stripLit ps cs else none

/-- Python `s.startswith(pre)`. -/
def pyStartsWith (s pre : String) : Bool := (stripLit pre.data s.data).isSome

/-- Split at the first occurrence of a (nonempty) separator:
`some (before, after)` with the separator removed, scanning left to right. -/
def splitFirstSep (sep : List Char) : List Char → Option (List Char × List Char)
  | [] =>
    match stripLit sep [] with
    | some rest => some ([], rest)
    | none => none
  | c :: cs =>
    match stripLit sep (c :: cs) with
    | some rest => some ([], rest)
    | none =>
      match splitFirstSep sep cs with
      | some ab => some (c :: ab.1, ab.2)
      | none => none

/-- Python `s.split(sep, 2)`: at most two splits, scanning left to right,
non-overlapping. -/
def pySplit2 (s sep : String) : List String :=
  match splitFirstSep sep.data s.data with
  | none => [s]
  | some (a, rest) =>
    match splitFirstSep sep.data rest with
    | none => [String.mk a, String.mk rest]
    | some (b, rest2) => [String.mk a, String.mk b, String.mk rest2]

/- ----- per-file validators ----- -/

/-- The `validate_skill_md` of `install_skill.py`, on the file's content
(the read itself is I/O; every claim under study concerns the content
checks).  Returns `(success, error_message)`.  The `try` around
`parse_simple_yaml` is dead: the parser is total. -/
def validate_skill_md (content : String) : Bool × String :=
  if !(pyStartsWith content "---") then
    (false, "Missing YAML frontmatter (must start with ---)")
  else
    let parts := pySplit2 content "---"
    if parts.length < 3 then
      (false, "Invalid frontmatter (missing closing ---)")
    else
      let frontmatter := parse_simple_yaml (parts.getD 1 "")
      if (frontmatter "name").isNone then
        (false, "Missing required field: name")
      else if (frontmatter "description").isNone then
        (false, "Missing required field: description")
      else
        (true, "")

/-- Verdicts of the external syntax checkers the installer delegates to
(`ast.parse` for `.py`, `bash -n` for `.sh`, `json.loads` for `.json`).
`none` means the content is accepted; `some msg` is the formatted error
message the corresponding `validate_*` function would return. -/
structure Oracles where
  pythonError : String → Option String
  shellError : String → Option String
  jsonError : String → Option String

/-- The `validate_python` (via the `ast.parse` oracle). -/
def validate_python (o : Oracles) (content : String) : Bool × String :=
  match o.pythonError content with
  | none => (true, "")
  | some e => (false, e)

/-- The `validate_shell` (via the `bash -n` oracle; a missing shell is modelled
by an oracle that always answers `none`, exactly the code's fallback). -/
def validate_shell (o : Oracles) (content : String) : Bool × String :=
  match o.shellError content with
  | none => (true, "")
  | some e => (false, e)

/-- The `validate_json` (via the `json.loads` oracle). -/
def validate_json (o : Oracles) (content : String) : Bool × String :=
  match o.jsonError content with
  | none => (true, "")
  | some e => (false, e)

/-- The `validate_yaml`: parse with the (total) simple parser; the `except`
branch is unreachable, so every content is accepted. -/
def validate_yaml (content : String) : Bool × String :=
  let _ := parse_simple_yaml content
  (true, "")

/-- Python `str.lower()` on ASCII names. -/
def pyLower (s : String) : String := String.mk (s.data.map Char.toLower)

/-- The `Path.name`: the final path component. -/
def fileName (p : String) : String :=
  String.mk ((p.data.reverse.takeWhile (· ≠ '/')).reverse)

/-- Index of the last `.` in a name, if any. -/
def lastDotIdx (cs : List Char) : Option Nat :=
  ((cs.enum.filter (fun q => q.2 = '.')).getLast?).map (fun q => q.1)

/-- The `Path.suffix`: the final extension of the last component, empty when the
only dot is leading or trailing. -/
def pySuffix (name : String) : String :=
  let cs := name.data
  match lastDotIdx cs with
  | none => ""
  | some i => if 0 < i ∧ i + 1 < cs.length then String.mk (cs.drop i) else ""

/-- The `validate_file`: dispatch on lowercased name / extension. -/
def validate_file (o : Oracles) (path content : String) : Bool × String :=
  let name := pyLower (fileName path)
  let suffix := pyLower (pySuffix (fileName path))
  if name = "skill.md" then validate_skill_md content
  else if suffix = ".py" then validate_python o content
  else if suffix = ".sh" then validate_shell o content
  else if suffix = ".json" then validate_json o content
  else if suffix = ".yaml" ∨ suffix = ".yml" then validate_yaml content
  else (true, "")

/-- The `for file_path in directory.rglob('*')` loop of `validate_all_files`:
error messages are collected in visiting order, never short-circuited. -/
def collectErrors (o : Oracles) : List (String × String) → List String
  | [] => []
  | f :: fs =>
    match validate_file o f.1 f.2 with
    | (true, _) => collectErrors o fs
    | (false, e) => (fileName f.1 ++ ": " ++ e) :: collectErrors o fs

/-- The error (if any) that one file contributes. -/
def fileError (o : Oracles) (f : String × String) : Option String :=
  match validate_file o f.1 f.2 with
  | (true, _) => none
  | (false, e) => some (fileName f.1 ++ ": " ++ e)

/-- The `validate_all_files` of `install_skill.py`: a tree is a flat list of
`(relative path, content)` pairs in visiting order; a top-level `SKILL.md`
is a pair whose path is exactly `"SKILL.md"`. -/
def validate_all_files (o : Oracles) (tree : List (String × String)) :
    Bool × List String :=
  if !(tree.any (fun f => f.1 == "SKILL.md")) then
    (false, ["SKILL.md not found in skill directory"])
  else
    let errors := collectErrors o tree
    (errors.isEmpty, errors)

/- ----- differencer ----- -/

/-- The `compare_skill_directories` result dict. -/
structure DiffResult where
  identical : Bool
  added : List String
  removed : List String
  modified : List String
deriving DecidableEq, Repr

/-- The `compare_skill_directories` of `install_skill.py`.  Each argument is the
dict produced by `get_relative_files`: relative path, paired with the file's
content hash (set conversion of the keys is modelled by `dedup`). -/
def compare_skill_directories (newFiles existingFiles : List (String × String)) :
    DiffResult :=
  let newKeys := (newFiles.map Prod.fst).dedup
  let exKeys := (existingFiles.map Prod.fst).dedup
  let added := pySorted (newKeys.filter (fun k => !(exKeys.contains k)))
  let removed := pySorted (exKeys.filter (fun k => !(newKeys.contains k)))
  let common := newKeys.filter (fun k => exKeys.contains k)
  let modified :=
    pySorted (common.filter (fun k => !(newFiles.lookup k == existingFiles.lookup k)))
  { identical := added.isEmpty && removed.isEmpty && modified.isEmpty
    added := added
    removed := removed
    modified := modified }

/-- The `display_skill_diff` reduced to its decision: `False` on an identical
tree, `True` under `--force`, otherwise the operator's answer. -/
def display_skill_diff (diff : DiffResult) (force userYes : Bool) : Bool :=
  if diff.identical then false
  else if force then true
  else userYes

/- ----- destination safety check ----- -/

/-- The state of the destination path: absent, an existing non-directory, or
a directory given by its flat file list. -/
inductive Dest where
  | absent
  | fileAt
  | dirAt (files : List (String × String))
deriving DecidableEq

def hasOwnSkillMd (files : List (String × String)) : Bool :=
  files.any (fun f => f.1 == "SKILL.md")

/-- First path component of a nested path (`none` for top-level files). -/
def topDir (p : String) : Option String :=
  if p.data.contains '/' then some (String.mk (p.data.takeWhile (· ≠ '/')))
  else none

/-- The `installed_skills` list of `check_root_skills_directory_safety`:
immediate subdirectories that contain their own `SKILL.md`. -/
def installedSkillSubdirs (files : List (String × String)) : List String :=
  ((files.filterMap (fun f => topDir f.1)).dedup).filter
    (fun d => files.any (fun f => f.1 == d ++ "/SKILL.md"))

/-- The `check_root_skills_directory_safety`: `some 4` means `sys.exit(4)`,
`none` means the run may continue. -/
def check_root_skills_directory_safety (dest : Dest) (force : Bool) : Option Nat :=
  match dest with
  | .absent => none
  | .fileAt => none
  | .dirAt files =>
    if force then none
    else if hasOwnSkillMd files then none
    else if !(installedSkillSubdirs files).isEmpty then some 4
    else none


/- ----- URL parsing ----- -/

/-- Components recovered by `parse_github_url`. -/
structure ParsedUrl where
  owner : String
  repo : String
  branch : String
  path : String
deriving DecidableEq, Repr

/-- The `https?://github\.com/` part of the pattern: strip either literal
scheme-plus-host from the front (the two alternatives are mutually
exclusive, so trying them in order is exact). -/
def stripHost (cs : List Char) : Option (List Char) :=
  match stripLit "https://github.com/".data cs with
  | some rest => some rest
  | none => stripLit "http://github.com/".data cs

/-- One `([^/]+)/` group: a nonempty run of non-slash characters followed by
a literal slash (maximal munch is exact here, since `[^/]+` cannot cross a
slash and the pattern continues with one). -/
def parseSeg (cs : List Char) : Option (List Char × List Char) :=
  let sp := cs.span (· ≠ '/')
  if sp.1.isEmpty then none
  else
    match sp.2 with
    | '/' :: rest => some (sp.1, rest)
    | _ => none

/-- A position where `$` may match in Python `re` (end of input, or just
before a single trailing newline). -/
def endsHere : List Char → Bool
  | [] => true
  | [c] => c = '\n'
  | _ => false

/-- Can `/?$` match the remaining input? -/
def tailOK (r : List Char) : Bool :=
  endsHere r || (r.head? == some '/' && endsHere r.tail)

/-- The lazy group `(.+?)` followed by `/?$`: consume characters one at a
time (never a newline, as `.` excludes it), stopping at the first point
where the rest of the pattern matches; `acc` is the text consumed so far. -/
def pathMatch (acc : List Char) : List Char → Option (List Char)
  | [] => none
  | c :: rest =>
    if c = '\n' then none
    else if tailOK rest then some (acc ++ [c])
    else pathMatch (acc ++ [c]) rest

/-- The tail `(?:/(.+?))?/?$` of the pattern, applied after the branch
group: `some (some p)` when the optional path group captured `p`,
`some none` when it did not participate, `none` on no match.  The optional
group is greedy, so it is tried before being skipped. -/
def matchAfterBranch (r : List Char) : Option (Option (List Char)) :=
  match r with
  | '/' :: s =>
    (match pathMatch [] s with
     | some p => some (some p)
     | none => if tailOK r then some none else none)
  | _ => if tailOK r then some none else none

/-- The `parse_github_url` of `install_skill.py`: Lean rendering of
`re.match(r'https?://github\.com/([^/]+)/([^/]+)/tree/([^/]+)(?:/(.+?))?/?$', url)`,
with `path` defaulting to the empty string when the group is absent. -/
def parse_github_url (url : String) : Option ParsedUrl :=
  match stripHost url.data with
  | none => none
  | some rest0 =>
    match parseSeg rest0 with
    | none => none
    | some (owner, rest1) =>
      match parseSeg rest1 with
      | none => none
      | some (repo, rest2) =>
        match stripLit "tree/".data rest2 with
        | none => none
        | some rest3 =>
          let sp := rest3.span (· ≠ '/')
          if sp.1.isEmpty then none
          else
            match matchAfterBranch sp.2 with
            | none => none
            | some pathOpt =>
              some
                { owner := String.mk owner
                  repo := String.mk repo
                  branch := String.mk sp.1
                  path := String.mk (pathOpt.getD []) }

/- ----- install orchestrator ----- -/

/-- Everything one run of `main` (without `--version` / argument errors)
consumes from the outside world, passed in as data. -/
structure PipelineInput where
  /-- the `--url` argument -/
  url : String
  force : Bool
  dryRun : Bool
  skipScan : Bool
  /-- state of the `--dest` path -/
  dest : Dest
  /-- result of `download_directory` into the scratch tree: a `RuntimeError`
  message, or the fetched `(relative path, content)` pairs in visiting
  order -/
  fetch : Except String (List (String × String))
  /-- the external syntax checkers -/
  oracles : Oracles
  /-- The `False` models a missing scanner script, a scan timeout, or unparsable
  scanner output — all of which `run_security_scan` skips past -/
  scannerOk : Bool
  /-- the findings the scanner subprocess reports for the scratch tree -/
  scanFindings : List Finding
  /-- operator's answer to the security-scan prompt, were it shown -/
  userScanYes : Bool
  /-- operator's answer to the diff prompt, were it shown -/
  userDiffYes : Bool
  /-- whether the final `install_skill` copy succeeds -/
  installOk : Bool

/-- Outcome of a run: the process exit code, and whether the destination
directory was mutated (files created, modified or removed under it). -/
structure PipelineResult where
  exitCode : Nat
  destMutated : Bool
deriving DecidableEq, Repr

def destExists : Dest → Bool
  | .absent => false
  | _ => true

def destFiles : Dest → List (String × String)
  | .dirAt files => files
  | _ => []

/-- Hash map of the scratch tree as `get_relative_files` computes it; content
stands in for its hash (`file_hash` equality is content equality in the
model). -/
def treeHashes (files : List (String × String)) : List (String × String) := files

/-- The scan gate of `main` step 2.5: skipped entirely under `--skip-scan`;
`run_security_scan` returns `True` when the scanner is unusable, otherwise
its decision on the parsed report. -/
def scanGate (w : PipelineInput) : Bool :=
  if w.skipScan then true
  else if !w.scannerOk then true
  else
    (run_security_scan
      (build_report "skill" [] w.scanFindings) w.force w.userScanYes).2

/-- The `install_skill` step 4: remove an existing destination, then copy the
scratch tree over; both outcomes have touched the destination. -/
def installStep (w : PipelineInput) : PipelineResult :=
  if w.installOk then ⟨0, true⟩ else ⟨3, true⟩

/-- The `main` state machine of `install_skill.py` as a pure function:
URL parsing, the container-directory safety check, the dry-run branch, the
fetch into the scratch tree, validation, the security-scan gate, the diff
gate when the destination exists, and the final commit. -/
def mainPipeline (w : PipelineInput) : PipelineResult :=
  match parse_github_url w.url with
  | none => ⟨2, false⟩
  | some _ =>
    match check_root_skills_directory_safety w.dest w.force with
    | some code => ⟨code, false⟩
    | none =>
      if w.dryRun then
        match w.fetch with
        | .error _ => ⟨1, false⟩
        | .ok _ => ⟨0, false⟩
      else
        match w.fetch with
        | .error _ => ⟨1, false⟩
        | .ok files =>
          if files.isEmpty then ⟨1, false⟩
          else if (validate_all_files w.oracles files).1 = false then ⟨2, false⟩
          else if scanGate w = false then ⟨0, false⟩
          else if destExists w.dest then
            if display_skill_diff
                (compare_skill_directories (treeHashes files)
                  (treeHashes (destFiles w.dest)))
                w.force w.userDiffYes = false then ⟨0, false⟩
            else installStep w
          else installStep w

/- ============================================================ -/
/- Theorems                                                     -/
/- ============================================================ -/

/-- Oracle that accepts every script/config file (all external checkers
succeed); used to instantiate theorems at concrete inputs. -/
def oracleNone : Oracles :=
  { pythonError := fun _ => none
    shellError := fun _ => none
    jsonError := fun _ => none }

/-- C1: the claim says that a scan report with at least one critical or
warning finding forces an operator confirmation before commit on a
non-forced, non-skip-scan run.  The code contradicts it: `run_security_scan`
reads `summary.get("total", 0)`, but the scanner's `_build_report` emits a
summary with only the keys `critical`, `warning` and `info`, so the lookup
always yields 0 and the gate returns "proceed" without ever prompting —
whatever the findings and even with `force` off and the operator's answer
being "no". -/
theorem c1_run_security_scan_never_prompts (p : String) (fs : List String)
    (findings : List Finding) (force userYes : Bool) :
    run_security_scan (build_report p fs findings) force userYes = (false, true) := by
  rfl

/-- C4: in every report built by `_build_report`, each summary count equals
the number of findings of that severity, and the exit code of
`exit_code_from_report` is 3 iff criticals exist, else 2 iff warnings exist,
else 1 iff infos exist, else 0. -/
theorem c4_summary_counts_and_exit_codes (p : String) (fs : List String)
    (findings : List Finding) :
    summaryGet (build_report p fs findings) "critical"
        = findings.countP (fun f => f.severity == "critical")
    ∧ summaryGet (build_report p fs findings) "warning"
        = findings.countP (fun f => f.severity == "warning")
    ∧ summaryGet (build_report p fs findings) "info"
        = findings.countP (fun f => f.severity == "info")
    ∧ (exit_code_from_report (build_report p fs findings) = 3
        ↔ 0 < summaryGet (build_report p fs findings) "critical")
    ∧ (exit_code_from_report (build_report p fs findings) = 2
        ↔ summaryGet (build_report p fs findings) "critical" = 0
          ∧ 0 < summaryGet (build_report p fs findings) "warning")
    ∧ (exit_code_from_report (build_report p fs findings) = 1
        ↔ summaryGet (build_report p fs findings) "critical" = 0
          ∧ summaryGet (build_report p fs findings) "warning" = 0
          ∧ 0 < summaryGet (build_report p fs findings) "info")
    ∧ (exit_code_from_report (build_report p fs findings) = 0
        ↔ summaryGet (build_report p fs findings) "critical" = 0
          ∧ summaryGet (build_report p fs findings) "warning" = 0
          ∧ summaryGet (build_report p fs findings) "info" = 0) := by
  have hc : summaryGet (build_report p fs findings) "critical"
      = severityCount "critical" findings := rfl
  have hw : summaryGet (build_report p fs findings) "warning"
      = severityCount "warning" findings := rfl
  have hi : summaryGet (build_report p fs findings) "info"
      = severityCount "info" findings := rfl
  have hcount : ∀ sev, severityCount sev findings
      = findings.countP (fun f => f.severity == sev) := by
    intro sev
    rw [List.countP_eq_length_filter]
    rfl
  refine ⟨by rw [hc, hcount], by rw [hw, hcount], by rw [hi, hcount], ?_, ?_, ?_, ?_⟩ <;>
    · unfold exit_code_from_report
      rw [hc, hw, hi]
      rcases Nat.eq_zero_or_pos (severityCount "critical" findings) with h1 | h1 <;>
        rcases Nat.eq_zero_or_pos (severityCount "warning" findings) with h2 | h2 <;>
          rcases Nat.eq_zero_or_pos (severityCount "info" findings) with h3 | h3 <;>
            simp [h1, h2, h3] <;> omega

/-- C10: the simple key:value parser behind `validate_yaml` is a total
function, so the YAML check accepts every (decodable) content: its failure
branch is unreachable.  Moreover a line without a colon leaves the dict
unchanged, and inserting a key overwrites any earlier binding for it while
leaving other keys untouched. -/
theorem c10_yaml_validation_total :
    (∀ content : String, validate_yaml content = (true, ""))
    ∧ (∀ (d : SimpleDict) (l : String), l.data.contains ':' = false →
        processYamlLine d l = d)
    ∧ (∀ (k v : String) (d : SimpleDict),
        dictInsert k v d k = some v
        ∧ ∀ x, x ≠ k → dictInsert k v d x = d x) := by
  refine ⟨fun _ => rfl, ?_, ?_⟩
  · intro d l h
    have hnm : ':' ∉ l.data := by simpa using h
    have hnm2 : ':' ∉ (pyStrip l).data := by
      intro hmem
      apply hnm
      have s1 : (l.data.dropWhile Char.isWhitespace).Sublist l.data :=
        List.dropWhile_sublist _
      have s2 : ((l.data.dropWhile Char.isWhitespace).reverse.dropWhile
          Char.isWhitespace).Sublist (l.data.dropWhile Char.isWhitespace).reverse :=
        List.dropWhile_sublist _
      have hmem3 : ':' ∈ ((l.data.dropWhile Char.isWhitespace).reverse.dropWhile
          Char.isWhitespace).reverse := hmem
      have hmem4 : ':' ∈ (l.data.dropWhile Char.isWhitespace).reverse :=
        s2.mem (List.mem_reverse.mp hmem3)
      exact s1.mem (List.mem_reverse.mp hmem4)
    have hsub : (pyStrip l).data.contains ':' = false := by simpa using hnm2
    unfold processYamlLine
    simp only [hsub]
    split_ifs with hA hB hC
    · rfl
    · rfl
    · exact hC.elim
    · rfl
  · intro k v d
    constructor
    · simp [dictInsert]
    · intro x hx
      simp [dictInsert, hx]

/-- Witness for C10 at concrete inputs: a well-formed YAML content is
accepted, a colon-free line is skipped, a duplicate key ends up bound to the
later value, and an untouched key keeps its old binding. -/
theorem c10_yaml_validation_total_witness :
    validate_yaml "name: hello\nplain line" = (true, "")
    ∧ processYamlLine emptyDict "plain line" = emptyDict
    ∧ dictInsert "name" "world" (dictInsert "name" "hello" emptyDict) "name"
        = some "world"
    ∧ dictInsert "name" "world" (dictInsert "other" "kept" emptyDict) "other"
        = some "kept" :=
  ⟨c10_yaml_validation_total.1 "name: hello\nplain line",
   c10_yaml_validation_total.2.1 emptyDict "plain line" (by decide),
   (c10_yaml_validation_total.2.2 "name" "world"
      (dictInsert "name" "hello" emptyDict)).1,
   by
    rw [(c10_yaml_validation_total.2.2 "name" "world"
      (dictInsert "other" "kept" emptyDict)).2 "other" (by decide)]
    rfl⟩

/-- The validation loop collects exactly the per-file errors, in visiting
order. -/
theorem collectErrors_eq_filterMap (o : Oracles) (tree : List (String × String)) :
    collectErrors o tree = tree.filterMap (fileError o) := by
  induction tree with
  | nil => rfl
  | cons f fs ih =>
    rcases hv : validate_file o f.1 f.2 with ⟨b, e⟩
    cases b <;>
      simp [collectErrors, fileError, List.filterMap_cons, hv, ih]

/-- C3: when no file named exactly `SKILL.md` sits at the root of the tree,
`validate_all_files` fails with that single error, independently of every
per-file validator (no per-file validation contributes); when it is present,
the error list is exactly the per-file errors of every file of the tree
(each file contributes through `fileError`, errors are collected, never
short-circuited), and success is their emptiness. -/
theorem c3_validate_all_files (o : Oracles) (tree : List (String × String)) :
    (tree.any (fun f => f.1 == "SKILL.md") = false →
      validate_all_files o tree = (false, ["SKILL.md not found in skill directory"])
      ∧ ∀ o2 : Oracles, validate_all_files o2 tree = validate_all_files o tree)
    ∧ (tree.any (fun f => f.1 == "SKILL.md") = true →
      (validate_all_files o tree).2 = tree.filterMap (fileError o)
      ∧ (validate_all_files o tree).1 = (tree.filterMap (fileError o)).isEmpty
      ∧ ∀ f ∈ tree, ∀ e, fileError o f = some e →
          e ∈ (validate_all_files o tree).2) := by
  constructor
  · intro h
    constructor
    · simp [validate_all_files, h]
    · intro o2
      simp [validate_all_files, h]
  · intro h
    have h2 : (validate_all_files o tree).2 = tree.filterMap (fileError o) := by
      simp [validate_all_files, h, collectErrors_eq_filterMap]
    refine ⟨h2, ?_, ?_⟩
    · simp [validate_all_files, h, collectErrors_eq_filterMap]
    · intro f hf e he
      rw [h2]
      exact List.mem_filterMap.mpr ⟨f, hf, he⟩

/-- Witness for C3: a tree without a root `SKILL.md` yields the single
missing-file error; a tree with one yields exactly the collected per-file
errors (here: the malformed `SKILL.md` itself, while the well-formed
`conf.yaml` contributes nothing). -/
theorem c3_validate_all_files_witness :
    validate_all_files oracleNone [("README.md", "hello")]
      = (false, ["SKILL.md not found in skill directory"])
    ∧ (validate_all_files oracleNone
        [("SKILL.md", "no frontmatter"), ("conf.yaml", "a: b")]).2
      = [("SKILL.md", "no frontmatter"), ("conf.yaml", "a: b")].filterMap
          (fileError oracleNone) :=
  ⟨((c3_validate_all_files oracleNone [("README.md", "hello")]).1 (by decide)).1,
   ((c3_validate_all_files oracleNone
      [("SKILL.md", "no frontmatter"), ("conf.yaml", "a: b")]).2 (by decide)).1⟩

/-- The `pySorted` sorts ascending under the string order. -/
theorem pySorted_sorted (l : List String) :
    List.Pairwise (fun x y : String => x ≤ y) (pySorted l) :=
  List.sorted_insertionSort (· ≤ ·) l

/-- C8: `compare_skill_directories` reports `identical` exactly when the
added, removed and modified lists are all empty; each of the three lists is
lexicographically sorted; the comparison is deterministic (equal inputs give
equal results); and comparing a tree with itself yields `identical` with all
three lists empty. -/
theorem c8_compare_directories (a b : List (String × String)) :
    ((compare_skill_directories a b).identical = true ↔
      (compare_skill_directories a b).added = []
      ∧ (compare_skill_directories a b).removed = []
      ∧ (compare_skill_directories a b).modified = [])
    ∧ List.Pairwise (fun x y : String => x ≤ y)
        (compare_skill_directories a b).added
    ∧ List.Pairwise (fun x y : String => x ≤ y)
        (compare_skill_directories a b).removed
    ∧ List.Pairwise (fun x y : String => x ≤ y)
        (compare_skill_directories a b).modified
    ∧ compare_skill_directories a b = compare_skill_directories a b
    ∧ compare_skill_directories a a = ⟨true, [], [], []⟩ := by
  refine ⟨?_, ?_, ?_, ?_, rfl, ?_⟩
  · simp [compare_skill_directories, List.isEmpty_iff, and_assoc]
  · exact pySorted_sorted _
  · exact pySorted_sorted _
  · exact pySorted_sorted _
  · have hfilter : ∀ l : List String,
        (l.filter fun k => !l.contains k) = [] := by
      intro l
      apply List.filter_eq_nil_iff.mpr
      intro k hk
      simp [hk]
    have hfilter2 : ∀ l : List String,
        (l.filter fun k => !decide (k ∈ l)) = [] := by
      intro l
      apply List.filter_eq_nil_iff.mpr
      intro k hk
      simp [hk]
    have hmod : ((a.map Prod.fst).dedup.filter (fun k => (a.map Prod.fst).dedup.contains k)).filter
        (fun k => !(a.lookup k == a.lookup k)) = [] := by
      apply List.filter_eq_nil_iff.mpr
      intro k _
      simp
    simp [compare_skill_directories, hfilter, hfilter2, hmod, pySorted,
      List.insertionSort]

/-- The safety check, when it aborts, always uses code 4. -/
theorem check_safety_code (dest : Dest) (force : Bool) (c : Nat)
    (h : check_root_skills_directory_safety dest force = some c) : c = 4 := by
  unfold check_root_skills_directory_safety at h
  rcases dest with _ | _ | files
  · simp at h
  · simp at h
  · split_ifs at h
    simp_all

/-- Exit code 4 of a run can only come from the container-directory safety
check (every other exit path uses 0, 1, 2 or 3). -/
theorem exit4_only_safety (w : PipelineInput)
    (h : (mainPipeline w).exitCode = 4) :
    (parse_github_url w.url).isSome = true
    ∧ check_root_skills_directory_safety w.dest w.force = some 4 := by
  unfold mainPipeline at h
  split at h
  · simp at h
  · rename_i p hp
    split at h
    · rename_i code hcode
      have hc4 : code = 4 := check_safety_code _ _ _ hcode
      subst hc4
      exact ⟨by simp [hp], hcode⟩
    · exfalso
      unfold installStep at h
      repeat' split at h
      all_goals simp_all

/-- C9: a destination directory with no `SKILL.md` of its own but with
subdirectories that each contain one makes the non-forced run abort with the
distinct exit code 4, before any destination file is touched; exit code 4
arises only from this check; and the check lets the run continue under
`--force`, when the destination has its own `SKILL.md`, or when it does not
exist. -/
theorem c9_root_directory_safety :
    (∀ (files : List (String × String)),
      hasOwnSkillMd files = false → installedSkillSubdirs files ≠ [] →
      check_root_skills_directory_safety (Dest.dirAt files) false = some 4)
    ∧ (∀ w : PipelineInput,
        check_root_skills_directory_safety w.dest w.force = some 4 →
        (parse_github_url w.url).isSome = true →
        mainPipeline w = ⟨4, false⟩)
    ∧ (∀ w : PipelineInput, (mainPipeline w).exitCode = 4 →
        check_root_skills_directory_safety w.dest w.force = some 4)
    ∧ (∀ dest : Dest, check_root_skills_directory_safety dest true = none)
    ∧ (∀ (files : List (String × String)) (force : Bool),
        hasOwnSkillMd files = true →
        check_root_skills_directory_safety (Dest.dirAt files) force = none)
    ∧ (∀ force : Bool, check_root_skills_directory_safety Dest.absent force = none) := by
  refine ⟨?_, ?_, ?_, ?_, ?_, ?_⟩
  · intro files h1 h2
    simp [check_root_skills_directory_safety, h1, h2]
  · intro w hcheck hparse
    obtain ⟨p, hp⟩ := Option.isSome_iff_exists.mp hparse
    simp [mainPipeline, hp, hcheck]
  · intro w h
    exact (exit4_only_safety w h).2
  · intro dest
    rcases dest with _ | _ | files <;> simp [check_root_skills_directory_safety]
  · intro files force h
    unfold check_root_skills_directory_safety
    split_ifs <;> simp_all
  · intro force
    rfl

/-- Witness for C9 at a concrete world: a destination holding one installed
skill (`demo/SKILL.md`) and no root `SKILL.md` makes the non-forced run stop
with exit code 4 and no destination mutation. -/
theorem c9_root_directory_safety_witness :
    check_root_skills_directory_safety
      (Dest.dirAt [("demo/SKILL.md", "x"), ("demo/run.py", "y")]) false = some 4
    ∧ mainPipeline
      { url := "https://github.com/o/r/tree/main/skills/demo"
        force := false, dryRun := false, skipScan := false
        dest := Dest.dirAt [("demo/SKILL.md", "x"), ("demo/run.py", "y")]
        fetch := Except.ok [("SKILL.md", "---\nname: a\ndescription: b\n---\n")]
        oracles := oracleNone, scannerOk := true, scanFindings := []
        userScanYes := false, userDiffYes := false, installOk := true }
      = ⟨4, false⟩ :=
  ⟨c9_root_directory_safety.1 [("demo/SKILL.md", "x"), ("demo/run.py", "y")]
      (by decide) (by decide),
   c9_root_directory_safety.2.1 _
      (c9_root_directory_safety.1 [("demo/SKILL.md", "x"), ("demo/run.py", "y")]
        (by decide) (by decide))
      (by decide)⟩

/-- C2: a run that reaches validation of the fetched tree and accumulates at
least one error exits with the `ValidationFailed` code 2 and no destination
mutation; and conversely, any run that mutates the destination has passed
every gate: URL resolution, the safety check, a non-empty fetch, validation,
the security-scan gate, and (when the destination pre-exists) the diff
approval. -/
theorem c2_validation_failure_aborts :
    (∀ (w : PipelineInput) (files : List (String × String)),
      (parse_github_url w.url).isSome = true →
      check_root_skills_directory_safety w.dest w.force = none →
      w.dryRun = false →
      w.fetch = Except.ok files →
      files.isEmpty = false →
      (validate_all_files w.oracles files).1 = false →
      mainPipeline w = ⟨2, false⟩)
    ∧ (∀ w : PipelineInput, (mainPipeline w).destMutated = true →
        (parse_github_url w.url).isSome = true
        ∧ check_root_skills_directory_safety w.dest w.force = none
        ∧ w.dryRun = false
        ∧ ∃ files, w.fetch = Except.ok files
            ∧ files.isEmpty = false
            ∧ (validate_all_files w.oracles files).1 = true
            ∧ scanGate w = true
            ∧ (destExists w.dest = true →
                display_skill_diff
                  (compare_skill_directories (treeHashes files)
                    (treeHashes (destFiles w.dest)))
                  w.force w.userDiffYes = true)) := by
  constructor
  · intro w files hparse hcheck hdry hfetch hemp hval
    obtain ⟨p, hp⟩ := Option.isSome_iff_exists.mp hparse
    simp [mainPipeline, hp, hcheck, hdry, hfetch, hemp, hval]
  · intro w h
    rcases hp : parse_github_url w.url with _ | p
    · simp only [mainPipeline, hp] at h
      simp at h
    · rcases hc : check_root_skills_directory_safety w.dest w.force with _ | code
      · rcases hd : w.dryRun
        · rcases hf : w.fetch with e | files
          · simp only [mainPipeline, hp, hc, hd, hf] at h
            simp at h
          · rcases hemp : files.isEmpty
            · rcases hval : (validate_all_files w.oracles files).1
              · simp only [mainPipeline, hp, hc, hd, hf, hemp, hval] at h
                simp at h
              · rcases hscan : scanGate w
                · simp only [mainPipeline, hp, hc, hd, hf, hemp, hval, hscan] at h
                  simp at h
                · rcases hde : destExists w.dest
                  · refine ⟨by simp, rfl, rfl, files, rfl, hemp, hval, rfl, ?_⟩
                    intro hx
                    exact absurd hx (by simp)
                  · rcases hdisp : display_skill_diff
                        (compare_skill_directories (treeHashes files)
                          (treeHashes (destFiles w.dest)))
                        w.force w.userDiffYes
                    · simp only [mainPipeline, hp, hc, hd, hf, hemp, hval, hscan,
                        hde, hdisp] at h
                      simp at h
                    · exact ⟨by simp, rfl, rfl, files, rfl, hemp, hval, rfl,
                        fun _ => hdisp⟩
            · simp only [mainPipeline, hp, hc, hd, hf, hemp] at h
              simp at h
        · rcases hf : w.fetch with e | files <;>
            · simp only [mainPipeline, hp, hc, hd, hf] at h
              simp at h
      · simp only [mainPipeline, hp, hc] at h
        simp at h

/-- Witness for C2 at a concrete world: the fetched tree lacks `SKILL.md`,
so validation fails, the run exits with code 2, and the (pre-existing)
destination is not mutated. -/
theorem c2_validation_failure_aborts_witness :
    mainPipeline
      { url := "https://github.com/o/r/tree/main/skills/demo"
        force := false, dryRun := false, skipScan := false
        dest := Dest.dirAt [("SKILL.md", "old")]
        fetch := Except.ok [("README.md", "hello")]
        oracles := oracleNone, scannerOk := true, scanFindings := []
        userScanYes := false, userDiffYes := false, installOk := true }
      = ⟨2, false⟩ :=
  c2_validation_failure_aborts.1 _ [("README.md", "hello")]
    (by decide) (by decide) rfl rfl (by decide) (by decide)

/-- Findings emitted from line counter `k` onward carry line numbers `≥ k`. -/
theorem checkInvisibleFrom_line_ge (file : String) (k : Nat) (lines : List String)
    (fi : Finding) (h : fi ∈ checkInvisibleFrom file k lines) : k ≤ fi.line := by
  induction lines generalizing k with
  | nil => simp [checkInvisibleFrom] at h
  | cons l ls ih =>
    simp only [checkInvisibleFrom, List.mem_append] at h
    rcases h with h | h
    · rcases hinv : lineHasInvisible l
      · rw [hinv] at h
        simp at h
      · rw [hinv] at h
        simp at h
        subst h
        exact le_refl _
    · have := ih (k + 1) h
      omega

/-- Every finding of the invisible-unicode check is critical and carries the
`invisible_unicode` category. -/
theorem checkInvisibleFrom_fields (file : String) (k : Nat) (lines : List String)
    (fi : Finding) (h : fi ∈ checkInvisibleFrom file k lines) :
    fi.severity = "critical" ∧ fi.category = "invisible_unicode" ∧ fi.file = file := by
  induction lines generalizing k with
  | nil => simp [checkInvisibleFrom] at h
  | cons l ls ih =>
    simp only [checkInvisibleFrom, List.mem_append] at h
    rcases h with h | h
    · rcases hinv : lineHasInvisible l
      · rw [hinv] at h
        simp at h
      · rw [hinv] at h
        simp at h
        subst h
        exact ⟨rfl, rfl, rfl⟩
    · exact ih (k + 1) h

/-- The findings attributed to line `n` by the loop started at counter `k`:
exactly the one finding of the `n`-th line when that line holds an invisible
codepoint, nothing otherwise. -/
theorem checkInvisibleFrom_filter (file : String) (n : Nat) :
    ∀ (k : Nat) (lines : List String) (line : String),
      k ≤ n → lines.get? (n - k) = some line →
      (checkInvisibleFrom file k lines).filter (fun fi => fi.line == n)
        = if lineHasInvisible line then [invisibleFinding file n line] else [] := by
  intro k lines
  induction lines generalizing k with
  | nil =>
    intro line hk hget
    simp at hget
  | cons l ls ih =>
    intro line hk hget
    by_cases hkn : k = n
    · subst hkn
      rw [Nat.sub_self] at hget
      simp at hget
      subst hget
      simp only [checkInvisibleFrom, List.filter_append]
      have hrest : (checkInvisibleFrom file (k + 1) ls).filter
          (fun fi => fi.line == k) = [] := by
        apply List.filter_eq_nil_iff.mpr
        intro fi hfi
        have hge := checkInvisibleFrom_line_ge file (k + 1) ls fi hfi
        simp only [beq_iff_eq]
        omega
      rw [hrest]
      rcases hinv : lineHasInvisible l
      · simp
      · simp [invisibleFinding]
    · have hk1 : k + 1 ≤ n := by omega
      have hget1 : ls.get? (n - (k + 1)) = some line := by
        have hnk : n - k = (n - (k + 1)) + 1 := by omega
        rw [hnk] at hget
        simpa using hget
      simp only [checkInvisibleFrom, List.filter_append]
      have hhead : ((if lineHasInvisible l then [invisibleFinding file k l]
          else []).filter (fun fi => fi.line == n)) = [] := by
        rcases hinv : lineHasInvisible l
        · simp
        · simp [invisibleFinding, hkn]
      rw [hhead, ih (k + 1) line hk1 hget1]
      simp

/-- C7: for a decodable file's lines, a 1-based line number whose line holds
at least one codepoint of the fixed invisible table yields exactly one
finding for that line — critical, categorized `invisible_unicode`, its
excerpt the stripped line truncated to 120 characters, its description built
from the deduplicated codepoints — and a line with no such codepoint yields
none.  The table covers U+200D (zero-width joiner). -/
theorem c7_invisible_unicode_per_line (file : String) (lines : List String)
    (n : Nat) (line : String) (h1 : 1 ≤ n) (h2 : lines.get? (n - 1) = some line) :
    ((check_invisible_unicode lines file).filter (fun fi => fi.line == n)
      = if lineHasInvisible line then [invisibleFinding file n line] else [])
    ∧ is_invisible (Char.ofNat 0x200D) = true
    ∧ (invisibleFinding file n line).severity = "critical"
    ∧ (invisibleFinding file n line).category = "invisible_unicode"
    ∧ (invisibleFinding file n line).matched_text = pyTake (pyStrip line) 120
    ∧ (invisibleFinding file n line).matched_text.data.length ≤ 120
    ∧ ((line.data.filter is_invisible).map Char.toNat).dedup.Nodup
    ∧ ∀ fi ∈ check_invisible_unicode lines file,
        fi.severity = "critical" ∧ fi.category = "invisible_unicode" := by
  refine ⟨checkInvisibleFrom_filter file n 1 lines line h1 h2, by decide, rfl, rfl,
    rfl, ?_, List.nodup_dedup _, ?_⟩
  · simp only [invisibleFinding, pyTake]
    simp [List.length_take]
  · intro fi hfi
    have hf := checkInvisibleFrom_fields file 1 lines fi hfi
    exact ⟨hf.1, hf.2.1⟩

/-- Witness for C7: in a two-line file whose first line hides a zero-width
joiner, line 1 receives exactly the one critical `invisible_unicode` finding
and the clean line 2 receives none. -/
theorem c7_invisible_unicode_per_line_witness :
    ((check_invisible_unicode ["a‍b", "clean"] "SKILL.md").filter
      (fun fi => fi.line == 1) = [invisibleFinding "SKILL.md" 1 "a‍b"])
    ∧ ((check_invisible_unicode ["a‍b", "clean"] "SKILL.md").filter
      (fun fi => fi.line == 2) = []) := by
  constructor
  · have h := (c7_invisible_unicode_per_line "SKILL.md" ["a‍b", "clean"] 1 "a‍b"
      (by decide) (by decide)).1
    rw [h]
    decide
  · have h := (c7_invisible_unicode_per_line "SKILL.md" ["a‍b", "clean"] 2 "clean"
      (by decide) (by decide)).1
    rw [h]
    decide

/-- Stripping a literal off its own concatenation succeeds. -/
theorem stripLit_self_append (p rest : List Char) :
    stripLit p (p ++ rest) = some rest := by
  induction p with
  | nil => rfl
  | cons c cs ih => simp [stripLit, ih]

/-- Inversion: a successful strip decomposes the input. -/
theorem stripLit_eq_some (p : List Char) :
    ∀ (cs r : List Char), stripLit p cs = some r → cs = p ++ r := by
  induction p with
  | nil =>
    intro cs r h
    simp [stripLit] at h
    simp [h]
  | cons c cs ih =>
    intro ds r h
    rcases ds with _ | ⟨d, ds⟩
    · simp [stripLit] at h
    · simp only [stripLit] at h
      split_ifs at h with hd
      subst hd
      simpa using ih ds r h

/-- A split at the first separator occurrence succeeds when the separator
sits at the very front. -/
theorem splitFirstSep_self (sep rest : List Char) (hne : sep ≠ []) :
    splitFirstSep sep (sep ++ rest) = some ([], rest) := by
  rcases sep with _ | ⟨s, ss⟩
  · exact absurd rfl hne
  · have h : stripLit (s :: ss) (s :: (ss ++ rest)) = some rest := by
      have h0 := stripLit_self_append (s :: ss) rest
      simpa using h0
    simp [splitFirstSep, h]

/-- The first-occurrence split succeeds exactly when the separator occurs
somewhere in the input. -/
theorem splitFirstSep_isSome (sep : List Char) (hne : sep ≠ []) :
    ∀ cs : List Char, (splitFirstSep sep cs).isSome = true ↔ sep <:+: cs := by
  intro cs
  induction cs with
  | nil =>
    rcases sep with _ | ⟨s, ss⟩
    · exact absurd rfl hne
    · constructor
      · intro h
        simp [splitFirstSep, stripLit] at h
      · rintro ⟨a, b, hab⟩
        simp at hab
  | cons c cs ih =>
    rcases h1 : stripLit sep (c :: cs) with _ | r
    · have hred : splitFirstSep sep (c :: cs)
          = match splitFirstSep sep cs with
            | some ab => some (c :: ab.1, ab.2)
            | none => none := by
        simp [splitFirstSep, h1]
      constructor
      · intro h
        rw [hred] at h
        rcases h2 : splitFirstSep sep cs with _ | ab
        · rw [h2] at h
          simp at h
        · have hcs : sep <:+: cs := ih.mp (by simp [h2])
          obtain ⟨a, b, hab⟩ := hcs
          exact ⟨c :: a, b, by simp [← hab]⟩
      · rintro ⟨a, b, hab⟩
        rcases a with _ | ⟨a0, as⟩
        · exfalso
          simp at hab
          have hsl : stripLit sep (c :: cs) = some b := by
            rw [← hab]
            exact stripLit_self_append sep b
          rw [h1] at hsl
          exact absurd hsl (by simp)
        · have hc : as ++ sep ++ b = cs := by
            have ht := congrArg List.tail hab
            simpa using ht
          have hcs : sep <:+: cs := ⟨as, b, hc⟩
          have hsome := ih.mpr hcs
          rw [hred]
          rcases h2 : splitFirstSep sep cs with _ | ab
          · rw [h2] at hsome
            simp at hsome
          · simp
    · constructor
      · intro _
        exact ⟨[], r, by simpa using (stripLit_eq_some sep (c :: cs) r h1).symm⟩
      · intro _
        simp [splitFirstSep, h1]

/-- C6: `validate_skill_md` succeeds exactly when the content starts with the
`---` delimiter, a second closing `---` occurs later, and the enclosed block
parses to a dict holding both a `name` and a `description` key; each failure
mode returns its specific, enumerable message. -/
theorem c6_validate_skill_md (content : String) :
    (validate_skill_md content = (true, "") ↔
      pyStartsWith content "---" = true
      ∧ ("---".data <:+: content.data.drop 3)
      ∧ (parse_simple_yaml ((pySplit2 content "---").getD 1 "") "name").isSome = true
      ∧ (parse_simple_yaml ((pySplit2 content "---").getD 1 "") "description").isSome = true)
    ∧ (pyStartsWith content "---" = false →
        validate_skill_md content
          = (false, "Missing YAML frontmatter (must start with ---)"))
    ∧ (pyStartsWith content "---" = true →
        ¬ ("---".data <:+: content.data.drop 3) →
        validate_skill_md content
          = (false, "Invalid frontmatter (missing closing ---)"))
    ∧ (pyStartsWith content "---" = true →
        ("---".data <:+: content.data.drop 3) →
        (parse_simple_yaml ((pySplit2 content "---").getD 1 "") "name").isSome = false →
        validate_skill_md content = (false, "Missing required field: name"))
    ∧ (pyStartsWith content "---" = true →
        ("---".data <:+: content.data.drop 3) →
        (parse_simple_yaml ((pySplit2 content "---").getD 1 "") "name").isSome = true →
        (parse_simple_yaml ((pySplit2 content "---").getD 1 "") "description").isSome = false →
        validate_skill_md content
          = (false, "Missing required field: description")) := by
  by_cases hstart : pyStartsWith content "---" = true
  · obtain ⟨r, hr⟩ := Option.isSome_iff_exists.mp (by simpa [pyStartsWith] using hstart)
    have hcd : content.data = "---".data ++ r := stripLit_eq_some _ _ _ hr
    have hdrop : content.data.drop 3 = r := by
      rw [hcd]
      rfl
    have h1 : splitFirstSep "---".data content.data = some ([], r) := by
      rw [hcd]
      exact splitFirstSep_self _ _ (by decide)
    have hiff := splitFirstSep_isSome "---".data (by decide) r
    rcases h2 : splitFirstSep "---".data r with _ | bc
    · have hni : ¬ ("---".data <:+: content.data.drop 3) := by
        rw [hdrop]
        intro hin
        have hx := hiff.mpr hin
        rw [h2] at hx
        simp at hx
      have hparts : pySplit2 content "---" = ["", String.mk r] := by
        unfold pySplit2
        rw [h1]
        simp only [h2]
      have hval : validate_skill_md content
          = (false, "Invalid frontmatter (missing closing ---)") := by
        unfold validate_skill_md
        simp [hstart, hparts]
      refine ⟨?_, ?_, fun _ _ => hval, ?_, ?_⟩
      · simp [hval, hni]
      · intro h
        rw [hstart] at h
        exact absurd h (by simp)
      · intro _ hin
        exact absurd hin hni
      · intro _ hin
        exact absurd hin hni
    · obtain ⟨b, c⟩ := bc
      have hin : ("---".data <:+: content.data.drop 3) := by
        rw [hdrop]
        exact hiff.mp (by simp [h2])
      have hparts : pySplit2 content "---" = ["", String.mk b, String.mk c] := by
        unfold pySplit2
        rw [h1]
        simp only [h2]
      have hfm : (pySplit2 content "---").getD 1 "" = String.mk b := by
        rw [hparts]
        rfl
      rcases hn : parse_simple_yaml (String.mk b) "name" with _ | nv
      · have hval : validate_skill_md content
            = (false, "Missing required field: name") := by
          unfold validate_skill_md
          simp [hstart, hparts, hn]
        refine ⟨?_, ?_, ?_, fun _ _ _ => hval, ?_⟩
        · rw [hval, hfm, hn]
          simp
        · intro h
          rw [hstart] at h
          exact absurd h (by simp)
        · intro _ hnin
          exact absurd hin hnin
        · intro _ _ hsome
          rw [hfm, hn] at hsome
          simp at hsome
      · rcases hd2 : parse_simple_yaml (String.mk b) "description" with _ | dv
        · have hval : validate_skill_md content
              = (false, "Missing required field: description") := by
            unfold validate_skill_md
            simp [hstart, hparts, hn, hd2]
          refine ⟨?_, ?_, ?_, ?_, fun _ _ _ _ => hval⟩
          · rw [hval, hfm, hn, hd2]
            simp
          · intro h
            rw [hstart] at h
            exact absurd h (by simp)
          · intro _ hnin
            exact absurd hin hnin
          · intro _ _ hnone
            rw [hfm, hn] at hnone
            simp at hnone
        · have hval : validate_skill_md content = (true, "") := by
            unfold validate_skill_md
            simp [hstart, hparts, hn, hd2]
          refine ⟨?_, ?_, ?_, ?_, ?_⟩
          · rw [hval, hfm, hn, hd2]
            simp [hin, hstart]
          · intro h
            rw [hstart] at h
            exact absurd h (by simp)
          · intro _ hnin
            exact absurd hin hnin
          · intro _ _ hnone
            rw [hfm, hn] at hnone
            simp at hnone
          · intro _ _ _ hnone
            rw [hfm, hd2] at hnone
            simp at hnone
  · have hstart2 : pyStartsWith content "---" = false := by
      simpa using hstart
    have hval : validate_skill_md content
        = (false, "Missing YAML frontmatter (must start with ---)") := by
      unfold validate_skill_md
      simp [hstart2]
    refine ⟨?_, fun _ => hval, ?_, ?_, ?_⟩
    · simp [hval, hstart2]
    · intro h
      rw [h] at hstart2
      exact absurd hstart2 (by simp)
    · intro h
      rw [h] at hstart2
      exact absurd hstart2 (by simp)
    · intro h
      rw [h] at hstart2
      exact absurd hstart2 (by simp)

/-- Witness for C6 at concrete contents: a content with frontmatter holding
both keys validates; no leading delimiter, an unclosed delimiter, and a
missing `description` each yield their specific message. -/
theorem c6_validate_skill_md_witness :
    validate_skill_md "---\nname: a\ndescription: b\n---\nbody" = (true, "")
    ∧ validate_skill_md "just text"
        = (false, "Missing YAML frontmatter (must start with ---)")
    ∧ validate_skill_md "---\nname: a\ndescription: b\n"
        = (false, "Invalid frontmatter (missing closing ---)")
    ∧ validate_skill_md "---\nname: a\n---\nbody"
        = (false, "Missing required field: description") :=
  ⟨(c6_validate_skill_md "---\nname: a\ndescription: b\n---\nbody").1.mpr
      ⟨by decide, by decide, by decide, by decide⟩,
   (c6_validate_skill_md "just text").2.1 (by decide),
   (c6_validate_skill_md "---\nname: a\ndescription: b\n").2.2.1 (by decide)
      (by decide),
   (c6_validate_skill_md "---\nname: a\n---\nbody").2.2.2.2 (by decide) (by decide)
      (by decide) (by decide)⟩

/-- A chunk that ends in a slash never satisfies `$` (with or without the
optional trailing newline). -/
theorem endsHere_append_slash (q : List Char) : endsHere (q ++ ['/']) = false := by
  rcases q with _ | ⟨d, ds⟩
  · rfl
  · rcases ds with _ | ⟨e, es⟩
    · rfl
    · rfl

/-- After at least one path character followed by a slash, `/?$` cannot match
yet. -/
theorem tailOK_append_slash (q : List Char) (hq : q ≠ []) :
    tailOK (q ++ ['/']) = false := by
  rcases q with _ | ⟨d, ds⟩
  · exact absurd rfl hq
  · have h1 : endsHere ((d :: ds) ++ ['/']) = false := endsHere_append_slash _
    have h2 : endsHere (ds ++ ['/']) = false := endsHere_append_slash _
    simp only [List.cons_append] at h1 ⊢
    simp [tailOK, h1, h2]

/-- The `/?$` fails on a nonempty, newline-free remainder other than a single
slash. -/
theorem tailOK_false (r : List Char) (hne : r ≠ []) (hnl : '\n' ∉ r)
    (hslash : r ≠ ['/']) : tailOK r = false := by
  rcases r with _ | ⟨d, ds⟩
  · exact absurd rfl hne
  · have hd : ¬ d = '\n' := fun h => hnl (by simp [h])
    rcases ds with _ | ⟨e, es⟩
    · have hd2 : ¬ d = '/' := fun h => hslash (by simp [h])
      simp [tailOK, endsHere, hd, hd2]
    · have he : ¬ e = '\n' := fun h => hnl (by simp [h])
      rcases es with _ | ⟨f, fs⟩
      · simp [tailOK, endsHere, he]
      · simp [tailOK, endsHere]

/-- One unfolding step of the lazy matcher on a cons cell. -/
theorem pathMatch_cons (acc : List Char) (c : Char) (rest : List Char) :
    pathMatch acc (c :: rest)
      = if c = '\n' then none
        else if tailOK rest then some (acc ++ [c])
        else pathMatch (acc ++ [c]) rest := rfl

/-- The lazy `(.+?)/?$` consumes a whole newline-free path that does not end
in a slash. -/
theorem pathMatch_full (p : List Char) :
    ∀ acc, p ≠ [] → '\n' ∉ p → p.getLast? ≠ some '/' →
    pathMatch acc p = some (acc ++ p) := by
  induction p with
  | nil =>
    intro acc h _ _
    exact absurd rfl h
  | cons c cs ih =>
    intro acc _ hnl hls
    have hc : ¬ c = '\n' := fun h => hnl (by simp [h])
    rcases cs with _ | ⟨d, ds⟩
    · simp [pathMatch_cons, hc, tailOK, endsHere]
    · have htail : tailOK (d :: ds) = false := by
        apply tailOK_false
        · simp
        · intro hmem
          exact hnl (by simp [hmem])
        · intro hq
          apply hls
          rw [hq]
          rfl
      have hrec := ih (acc ++ [c]) (by simp)
        (fun hmem => hnl (by simp [hmem]))
        (by rw [← List.getLast?_cons_cons (a := c)]; exact hls)
      rw [pathMatch_cons, if_neg hc, if_neg (by simp [htail]), hrec]
      simp

/-- The lazy `(.+?)/?$` consumes a newline-free path and lets `/?` absorb
the single trailing slash after it. -/
theorem pathMatch_slash (p : List Char) :
    ∀ acc, p ≠ [] → '\n' ∉ p →
    pathMatch acc (p ++ ['/']) = some (acc ++ p) := by
  induction p with
  | nil =>
    intro acc h _
    exact absurd rfl h
  | cons c cs ih =>
    intro acc _ hnl
    have hc : ¬ c = '\n' := fun h => hnl (by simp [h])
    rcases cs with _ | ⟨d, ds⟩
    · simp [pathMatch_cons, hc, tailOK, endsHere]
    · have htail : tailOK ((d :: ds) ++ ['/']) = false :=
        tailOK_append_slash (d :: ds) (by simp)
      have hrec := ih (acc ++ [c]) (by simp)
        (fun hmem => hnl (by simp [hmem]))
      have hshape : (c :: d :: ds) ++ ['/'] = c :: ((d :: ds) ++ ['/']) := by simp
      rw [hshape, pathMatch_cons, if_neg hc, if_neg (by simpa using htail), hrec]
      simp

/-- The `(?:/(.+?))?/?$` on the empty remainder: the group is skipped. -/
theorem matchAfterBranch_nil : matchAfterBranch [] = some none := rfl

/-- The `(?:/(.+?))?/?$` on a lone trailing slash: the group cannot take it
(`.+?` needs a character), `/?` does. -/
theorem matchAfterBranch_slash : matchAfterBranch ['/'] = some none := rfl

/-- The optional group captures a well-formed path exactly. -/
theorem matchAfterBranch_path (p : List Char) (hne : p ≠ []) (hnl : '\n' ∉ p)
    (hls : p.getLast? ≠ some '/') :
    matchAfterBranch ('/' :: p) = some (some p) := by
  have h : pathMatch [] p = some p := by
    simpa using pathMatch_full p [] hne hnl hls
  simp [matchAfterBranch, h]

/-- The optional group captures a well-formed path, dropping one trailing
slash. -/
theorem matchAfterBranch_path_slash (p : List Char) (hne : p ≠ []) (hnl : '\n' ∉ p) :
    matchAfterBranch ('/' :: (p ++ ['/'])) = some (some p) := by
  have h : pathMatch [] (p ++ ['/']) = some p := by
    simpa using pathMatch_slash p [] hne hnl
  simp [matchAfterBranch, h]

/-- The `[^/]+` takes a whole slash-free segment when a slash follows. -/
theorem takeWhile_append_slash (s rest : List Char) (h : '/' ∉ s) :
    (s ++ '/' :: rest).takeWhile (fun c => c ≠ '/') = s := by
  induction s with
  | nil => simp [List.takeWhile_cons]
  | cons c cs ih =>
    have hc : ¬ c = '/' := fun hh => h (by simp [hh])
    simp only [List.cons_append, List.takeWhile_cons]
    rw [if_pos (by simp [hc]), ih (fun hm => h (by simp [hm]))]

/-- Companion to `takeWhile_append_slash` for the dropped part. -/
theorem dropWhile_append_slash (s rest : List Char) (h : '/' ∉ s) :
    (s ++ '/' :: rest).dropWhile (fun c => c ≠ '/') = '/' :: rest := by
  induction s with
  | nil => simp [List.dropWhile_cons]
  | cons c cs ih =>
    have hc : ¬ c = '/' := fun hh => h (by simp [hh])
    simp only [List.cons_append, List.dropWhile_cons]
    rw [if_pos (by simp [hc]), ih (fun hm => h (by simp [hm]))]

/-- The `([^/]+)/` on a nonempty slash-free segment followed by a slash. -/
theorem parseSeg_append (s rest : List Char) (hne : s ≠ []) (h : '/' ∉ s) :
    parseSeg (s ++ '/' :: rest) = some (s, rest) := by
  unfold parseSeg
  simp only [List.span_eq_take_drop, takeWhile_append_slash s rest h,
    dropWhile_append_slash s rest h]
  simp [hne]

/-- Inversion of a successful segment parse. -/
theorem parseSeg_some (cs : List Char) (s rest : List Char)
    (h : parseSeg cs = some (s, rest)) : cs = s ++ '/' :: rest ∧ s ≠ [] := by
  unfold parseSeg at h
  simp only [List.span_eq_take_drop] at h
  split_ifs at h with hemp
  split at h
  · rename_i rest1 heq
    simp only [Option.some.injEq, Prod.mk.injEq] at h
    obtain ⟨h1, h2⟩ := h
    subst h2
    constructor
    · rw [← List.takeWhile_append_dropWhile (p := fun c => decide (c ≠ '/')) (l := cs),
        heq, h1]
    · intro hs
      rw [hs] at h1
      rw [h1] at hemp
      simp at hemp
  · exact absurd h (by simp)

/-- The scheme-and-host literal strips off a URL built over it. -/
theorem stripHost_https (rest : List Char) :
    stripHost ("https://github.com/".data ++ rest) = some rest := by
  unfold stripHost
  rw [stripLit_self_append]

/-- Inversion: a stripped host pins the URL's prefix to one of the two
scheme alternatives. -/
theorem stripHost_some (cs r : List Char) (h : stripHost cs = some r) :
    cs = "https://github.com/".data ++ r ∨ cs = "http://github.com/".data ++ r := by
  unfold stripHost at h
  rcases h1 : stripLit "https://github.com/".data cs with _ | r1
  · rw [h1] at h
    exact Or.inr (stripLit_eq_some _ _ _ h)
  · rw [h1] at h
    simp at h
    subst h
    exact Or.inl (stripLit_eq_some _ _ _ h1)

/-- The `[^/]+` takes everything when no slash remains. -/
theorem takeWhile_no_slash (b : List Char) (h : '/' ∉ b) :
    List.takeWhile (fun c => decide (c ≠ '/')) b = b := by
  induction b with
  | nil => rfl
  | cons c cs ih =>
    have hc : ¬ c = '/' := fun hh => h (by simp [hh])
    simp only [List.takeWhile_cons]
    rw [if_pos (by simp [hc]), ih (fun hm => h (by simp [hm]))]

/-- Companion to `takeWhile_no_slash`. -/
theorem dropWhile_no_slash (b : List Char) (h : '/' ∉ b) :
    List.dropWhile (fun c => decide (c ≠ '/')) b = [] := by
  induction b with
  | nil => rfl
  | cons c cs ih =>
    have hc : ¬ c = '/' := fun hh => h (by simp [hh])
    simp only [List.dropWhile_cons]
    rw [if_pos (by simp [hc]), ih (fun hm => h (by simp [hm]))]

/-- Evaluation of `parse_github_url` on a URL decomposed into its regex
groups: slash-free nonempty owner, repository and branch, then a tail
accepted by the optional path group. -/
theorem parse_github_url_eq (url : String) (o r b t4 : List Char)
    (po : Option (List Char))
    (hurl : url.data = "https://github.com/".data
      ++ (o ++ '/' :: (r ++ '/' :: ('t' :: 'r' :: 'e' :: 'e' :: '/' :: (b ++ t4)))))
    (ho1 : o ≠ []) (ho2 : '/' ∉ o)
    (hr1 : r ≠ []) (hr2 : '/' ∉ r)
    (hb1 : b ≠ []) (hb2 : '/' ∉ b)
    (ht : t4 = [] ∨ ∃ t, t4 = '/' :: t)
    (hm : matchAfterBranch t4 = some po) :
    parse_github_url url
      = some ⟨String.mk o, String.mk r, String.mk b, String.mk (po.getD [])⟩ := by
  have h1 : parseSeg (o ++ '/' :: (r ++ '/' :: ('t' :: 'r' :: 'e' :: 'e' :: '/' :: (b ++ t4))))
      = some (o, r ++ '/' :: ('t' :: 'r' :: 'e' :: 'e' :: '/' :: (b ++ t4))) :=
    parseSeg_append _ _ ho1 ho2
  have h2 : parseSeg (r ++ '/' :: ('t' :: 'r' :: 'e' :: 'e' :: '/' :: (b ++ t4)))
      = some (r, 't' :: 'r' :: 'e' :: 'e' :: '/' :: (b ++ t4)) :=
    parseSeg_append _ _ hr1 hr2
  have h3 : stripLit "tree/".data ('t' :: 'r' :: 'e' :: 'e' :: '/' :: (b ++ t4))
      = some (b ++ t4) :=
    stripLit_self_append "tree/".data (b ++ t4)
  rcases ht with rfl | ⟨t, rfl⟩
  · have h4 : (b ++ ([] : List Char)).span (fun c => c ≠ '/') = (b, []) := by
      simp only [List.append_nil]
      rw [List.span_eq_take_drop, takeWhile_no_slash b hb2, dropWhile_no_slash b hb2]
    unfold parse_github_url
    rw [hurl, stripHost_https]
    simp only [h1, h2, h3, h4, hm]
    simp [hb1]
  · have h4 : (b ++ '/' :: t).span (fun c => c ≠ '/') = (b, '/' :: t) := by
      rw [List.span_eq_take_drop]
      rw [takeWhile_append_slash b t hb2, dropWhile_append_slash b t hb2]
    unfold parse_github_url
    rw [hurl, stripHost_https]
    simp only [h1, h2, h3, h4, hm]
    simp [hb1]

/-- Inversion: any successful parse exhibits the literal `/tree/` inside the
URL. -/
theorem parse_github_url_some (u : String) (pu : ParsedUrl)
    (h : parse_github_url u = some pu) : "/tree/".data <:+: u.data := by
  unfold parse_github_url at h
  rcases h0 : stripHost u.data with _ | rest0
  · simp only [h0] at h
    simp at h
  · simp only [h0] at h
    rcases h1 : parseSeg rest0 with _ | ⟨o, rest1⟩
    · simp only [h1] at h
      simp at h
    · simp only [h1] at h
      rcases h2 : parseSeg rest1 with _ | ⟨r, rest2⟩
      · simp only [h2] at h
        simp at h
      · simp only [h2] at h
        rcases h3 : stripLit "tree/".data rest2 with _ | rest3
        · simp only [h3] at h
          simp at h
        · have hd1 := (parseSeg_some _ _ _ h1).1
          have hd2 := (parseSeg_some _ _ _ h2).1
          have hd3 := stripLit_eq_some _ _ _ h3
          have hlit : "/tree/".data = '/' :: "tree/".data := rfl
          rcases stripHost_some _ _ h0 with hd0 | hd0
          · refine ⟨"https://github.com/".data ++ o ++ '/' :: r, rest3, ?_⟩
            rw [hd0, hd1, hd2, hd3, hlit]
            simp
          · refine ⟨"http://github.com/".data ++ o ++ '/' :: r, rest3, ?_⟩
            rw [hd0, hd1, hd2, hd3, hlit]
            simp

/-- C5: for every URL assembled as
`https://github.com/<owner>/<repo>/tree/<branch>`, optionally followed by
`/<path>` and an optional trailing slash (components nonempty and slash-free,
the path newline-free and not slash-terminated), `parse_github_url` recovers
exactly those components, with the path defaulting to empty; and every URL in
which the literal `/tree/` does not occur fails to parse, yielding no partial
result. -/
theorem c5_parse_github_url (o r b p : String)
    (ho1 : o.data ≠ []) (ho2 : '/' ∉ o.data)
    (hr1 : r.data ≠ []) (hr2 : '/' ∉ r.data)
    (hb1 : b.data ≠ []) (hb2 : '/' ∉ b.data)
    (hp1 : p.data ≠ []) (hp2 : '\n' ∉ p.data) (hp3 : p.data.getLast? ≠ some '/') :
    parse_github_url ("https://github.com/" ++ o ++ "/" ++ r ++ "/tree/" ++ b)
      = some ⟨o, r, b, ""⟩
    ∧ parse_github_url ("https://github.com/" ++ o ++ "/" ++ r ++ "/tree/" ++ b ++ "/")
      = some ⟨o, r, b, ""⟩
    ∧ parse_github_url
        ("https://github.com/" ++ o ++ "/" ++ r ++ "/tree/" ++ b ++ "/" ++ p)
      = some ⟨o, r, b, p⟩
    ∧ parse_github_url
        ("https://github.com/" ++ o ++ "/" ++ r ++ "/tree/" ++ b ++ "/" ++ p ++ "/")
      = some ⟨o, r, b, p⟩
    ∧ ∀ u : String, ¬ ("/tree/".data <:+: u.data) → parse_github_url u = none := by
  have e1 : ("/" : String).data = ['/'] := rfl
  have e2 : ("/tree/" : String).data = ['/', 't', 'r', 'e', 'e', '/'] := rfl
  refine ⟨?_, ?_, ?_, ?_, ?_⟩
  · have hurl : ("https://github.com/" ++ o ++ "/" ++ r ++ "/tree/" ++ b).data
        = "https://github.com/".data
          ++ (o.data ++ '/' :: (r.data ++ '/' ::
            ('t' :: 'r' :: 'e' :: 'e' :: '/' :: (b.data ++ ([] : List Char))))) := by
      simp [String.data_append, e1, e2]
    exact parse_github_url_eq _ o.data r.data b.data [] none hurl
      ho1 ho2 hr1 hr2 hb1 hb2 (Or.inl rfl) matchAfterBranch_nil
  · have hurl : ("https://github.com/" ++ o ++ "/" ++ r ++ "/tree/" ++ b ++ "/").data
        = "https://github.com/".data
          ++ (o.data ++ '/' :: (r.data ++ '/' ::
            ('t' :: 'r' :: 'e' :: 'e' :: '/' :: (b.data ++ ['/'])))) := by
      simp [String.data_append, e1, e2]
    exact parse_github_url_eq _ o.data r.data b.data ['/'] none hurl
      ho1 ho2 hr1 hr2 hb1 hb2 (Or.inr ⟨[], rfl⟩) matchAfterBranch_slash
  · have hurl : ("https://github.com/" ++ o ++ "/" ++ r ++ "/tree/" ++ b ++ "/" ++ p).data
        = "https://github.com/".data
          ++ (o.data ++ '/' :: (r.data ++ '/' ::
            ('t' :: 'r' :: 'e' :: 'e' :: '/' :: (b.data ++ '/' :: p.data)))) := by
      simp [String.data_append, e1, e2]
    exact parse_github_url_eq _ o.data r.data b.data ('/' :: p.data) (some p.data) hurl
      ho1 ho2 hr1 hr2 hb1 hb2 (Or.inr ⟨p.data, rfl⟩)
      (matchAfterBranch_path p.data hp1 hp2 hp3)
  · have hurl : ("https://github.com/" ++ o ++ "/" ++ r ++ "/tree/" ++ b ++ "/" ++ p
        ++ "/").data
        = "https://github.com/".data
          ++ (o.data ++ '/' :: (r.data ++ '/' ::
            ('t' :: 'r' :: 'e' :: 'e' :: '/' :: (b.data ++ '/' :: (p.data ++ ['/']))))) := by
      simp [String.data_append, e1, e2]
    exact parse_github_url_eq _ o.data r.data b.data ('/' :: (p.data ++ ['/']))
      (some p.data) hurl ho1 ho2 hr1 hr2 hb1 hb2 (Or.inr ⟨p.data ++ ['/'], rfl⟩)
      (matchAfterBranch_path_slash p.data hp1 hp2)
  · intro u hnin
    rcases hpu : parse_github_url u with _ | pu
    · rfl
    · exact absurd (parse_github_url_some u pu hpu) hnin

/-- Witness for C5 at concrete components: the four URL shapes parse to the
expected record, and a URL without a `/tree/` segment parses to nothing. -/
theorem c5_parse_github_url_witness :
    parse_github_url ("https://github.com/" ++ "jacob-bd" ++ "/" ++ "universal-skills"
        ++ "/tree/" ++ "main" ++ "/" ++ "skills/demo")
      = some ⟨"jacob-bd", "universal-skills", "main", "skills/demo"⟩
    ∧ parse_github_url ("https://github.com/" ++ "jacob-bd" ++ "/" ++ "universal-skills"
        ++ "/tree/" ++ "main")
      = some ⟨"jacob-bd", "universal-skills", "main", ""⟩
    ∧ parse_github_url "https://github.com/jacob-bd/universal-skills/archive/main"
      = none :=
  ⟨(c5_parse_github_url "jacob-bd" "universal-skills" "main" "skills/demo"
      (by decide) (by decide) (by decide) (by decide) (by decide) (by decide)
      (by decide) (by decide) (by decide)).2.2.1,
   (c5_parse_github_url "jacob-bd" "universal-skills" "main" "skills/demo"
      (by decide) (by decide) (by decide) (by decide) (by decide) (by decide)
      (by decide) (by decide) (by decide)).1,
   (c5_parse_github_url "jacob-bd" "universal-skills" "main" "skills/demo"
      (by decide) (by decide) (by decide) (by decide) (by decide) (by decide)
      (by decide) (by decide) (by decide)).2.2.2.2
     "https://github.com/jacob-bd/universal-skills/archive/main" (by decide)⟩
